import Mathlib

set_option maxHeartbeats 1000000

/-!
Verification of the table-reconstruction routine `tables_to_pandas` from
`lib/arynsdk/arynsdk/partition/partition.py`.

The embedding models the Python code directly:
* grid indices are `Int` (Python ints); numpy indexing accepts indices in
  `[-n, n)`, wrapping negative ones, and raises `IndexError` otherwise;
* the dense `numpy` object grid is a function `Nat → Nat → Option String`,
  where `none` is the `None` initial marker of `np.empty(dtype="object")`;
* fallible Python code is modelled with `Except PyErr`;
* `" | ".join` over a sequence containing `None` raises `TypeError`.
-/

/-- Python exception classes that `tables_to_pandas` can raise:
`IndexError` (list index out of range / numpy out-of-bounds index) and
`TypeError` (`str.join` over a sequence containing `None`). -/
inductive PyErr where
  | indexError
  | typeError
  deriving DecidableEq

/-- One annotated table cell, as found in `table["cells"]`. -/
structure Cell where
  rows : List Int
  cols : List Int
  content : String
  is_header : Bool
  deriving DecidableEq

/-- A table element's `table` field: `num_rows`, `num_cols` and the cells. -/
structure Table where
  num_rows : Nat
  num_cols : Nat
  cells : List Cell
  deriving DecidableEq

/-- An element of the partitioning response: its `type` tag and its
`table` field (`none` models JSON `null`). -/
structure Element where
  type : String
  table : Option Table
  deriving DecidableEq

/-- The response dict passed to `tables_to_pandas`; only `data["elements"]`
is consumed. -/
structure PartitionData where
  elements : List Element
  deriving DecidableEq

/-- The observable content of the `pd.DataFrame` built per table: the
`columns` argument (absent when `max_header_prefix_row < 0`) and the data
rows `grid[max_header_prefix_row + 1 :, :]`. -/
structure PandasTable where
  column_labels : Option (List String)
  data_rows : List (List (Option String))
  deriving DecidableEq

/-- The dense numpy object grid, as a function of (row, column). -/
abbrev GridF := Nat → Nat → Option String

/-- `np.empty([h, w], dtype="object")`: every entry is `None`. -/
def emptyGridF : GridF := fun _ _ => none

/-- Functional update of one grid position. -/
def setF (g : GridF) (ri ci : Nat) (v : String) : GridF :=
  fun r c => if r = ri ∧ c = ci then some v else g r c

/-- numpy index resolution for one axis of length `n`: indices in `[0, n)`
are used as-is, indices in `[-n, 0)` wrap by adding `n`, and anything else
is invalid (`none`, an `IndexError` at use sites). -/
def npIndex (n : Nat) (i : Int) : Option Nat :=
  if 0 ≤ i ∧ i < (n : Int) then some i.toNat
  else if -(n : Int) ≤ i ∧ i < 0 then some (i + n).toNat
  else none

/-- Whether the single assignment `grid[r, c] = v` is within bounds. -/
def validWrite (h w : Nat) (t : Int × Int × String) : Bool :=
  (npIndex h t.1).isSome && (npIndex w t.2.1).isSome

/-- The assignment `grid[r, c] = v` on an `h × w` grid; raises
`IndexError` when either index is invalid. -/
def gridWrite (h w : Nat) (g : GridF) (t : Int × Int × String) : Except PyErr GridF :=
  match npIndex h t.1, npIndex w t.2.1 with
  | some ri, some ci => .ok (setF g ri ci t.2.2)
  | _, _ => .error .indexError

/-- Total version of `gridWrite`: an invalid write leaves the grid alone
(used only to state what the fallible fold computes when it succeeds). -/
def applyWriteF (h w : Nat) (g : GridF) (t : Int × Int × String) : GridF :=
  match npIndex h t.1, npIndex w t.2.1 with
  | some ri, some ci => setF g ri ci t.2.2
  | _, _ => g

/-- Left fold over a list with a fallible step, stopping at the first
error — the shape of every Python `for` loop in `tables_to_pandas`. -/
def exFoldl (f : σ → α → Except ε σ) (init : σ) : List α → Except ε σ
  | [] => .ok init
  | a :: l =>
    match f init a with
    | .error e => .error e
    | .ok s => exFoldl f s l

/-- Fallible map collecting results in order, stopping at the first
error — the shape of Python loops that append to a result list. -/
def exMapM (f : α → Except ε β) : List α → Except ε (List β)
  | [] => .ok []
  | a :: l =>
    match f a with
    | .error e => .error e
    | .ok b =>
      match exMapM f l with
      | .error e => .error e
      | .ok bs => .ok (b :: bs)

/-- The sequence of assignments performed for a cell in the `else` branch
(lines 167-172): `content` at `(rows[0], cols[0])`, `""` at
`(rows[0], c)` for `c` in `cols[1:]`, then `""` at `(r, c)` for `r` in
`rows[1:]` and `c` in `cols`.  `none` models the `IndexError` raised by
`cell["rows"][0]` / `cell["cols"][0]` on an empty sequence. -/
def elseWrites (cell : Cell) : Option (List (Int × Int × String)) :=
  match cell.rows, cell.cols with
  | r0 :: rtail, c0 :: ctail =>
    some ((r0, c0, cell.content) ::
      (ctail.map (fun c => (r0, c, "")) ++
       rtail.flatMap (fun r => (c0 :: ctail).map (fun c => (r, c, "")))))
  | _, _ => none

/-- The sequence of assignments performed for a cell (lines 159-172).
The branch condition `cell["is_header"] and cell["rows"][0] <= m`
short-circuits: `rows[0]` is only read when `is_header` is true, and
raises `IndexError` on an empty `rows`. -/
def cellWrites (m : Int) (cell : Cell) : Option (List (Int × Int × String)) :=
  if cell.is_header then
    match cell.rows with
    | [] => none
    | r0 :: rtail =>
      if r0 ≤ m then
        some (cell.cols.map (fun c => (r0, c, cell.content)) ++
          rtail.flatMap (fun r => cell.cols.map (fun c => (r, c, ""))))
      else elseWrites cell
  else elseWrites cell

/-- Process one cell of the fill loop: perform its assignments in order,
surfacing the first `IndexError`. -/
def fillCell (m : Int) (h w : Nat) (g : GridF) (cell : Cell) : Except PyErr GridF :=
  match cellWrites m cell with
  | none => .error .indexError
  | some ws => exFoldl (gridWrite h w) g ws

/-- The whole fill loop `for cell in table["cells"]` (lines 159-172). -/
def fillCells (m : Int) (h w : Nat) (g : GridF) (cells : List Cell) : Except PyErr GridF :=
  exFoldl (fillCell m h w) g cells

/-- Line 147-149: `sorted(set(row_num for cell in cells for row_num in
cell["rows"] if cell["is_header"]))`. -/
def header_rows (cells : List Cell) : List Int :=
  ((cells.flatMap (fun c => if c.is_header then c.rows else [])).dedup).insertionSort
    (fun a b => a ≤ b)

/-- Lines 150-153: `i = -1; for i in range(len(H)): if H[i] != i: break`.
The counter argument is the number of elements already scanned. -/
def prefix_scan : List Int → Nat → Int
  | [], 0 => -1
  | [], n + 1 => (n : Int)
  | a :: l, i => if a = (i : Int) then prefix_scan l (i + 1) else (i : Int)

/-- Line 154: the final value of `i`. -/
def max_header_prefix_row (hrows : List Int) : Int := prefix_scan hrows 0

/-- Lines 158-172: allocate the grid and run the fill loop. -/
def fillGrid (t : Table) : Except PyErr GridF :=
  fillCells (max_header_prefix_row (header_rows t.cells)) t.num_rows t.num_cols
    emptyGridF t.cells

/-- The grid produced by a successful fill (arbitrary when the fill
raised; used only to state theorems about successful runs). -/
def gridOf (t : Table) : GridF :=
  match fillGrid t with
  | .ok g => g
  | .error _ => emptyGridF

/-- Materialize the `h × w` grid as its list of rows. -/
def toRows (h w : Nat) (g : GridF) : List (List (Option String)) :=
  (List.range h).map (fun r => (List.range w).map (fun c => g r c))

/-- `OrderedDict.fromkeys` accumulator: keep the first occurrence of each
value, preserving order. -/
def dedupFirstAux [DecidableEq α] (seen : List α) : List α → List α
  | [] => []
  | a :: l => if a ∈ seen then dedupFirstAux seen l else a :: dedupFirstAux (a :: seen) l

/-- `list(OrderedDict.fromkeys(l))`: order-preserving deduplication. -/
def dedupFirst [DecidableEq α] (l : List α) : List α := dedupFirstAux [] l

/-- `str.join` item check: all items must be strings; a `None` raises
`TypeError` (signalled here by `none`). -/
def optsToStrings : List (Option String) → Option (List String)
  | [] => some []
  | some s :: l => (optsToStrings l).map (fun ss => s :: ss)
  | none :: _ => none

/-- Line 177: `" | ".join(OrderedDict.fromkeys(c for c in npcol if c != ""))`
over one transposed header column.  `None` entries survive the `c != ""`
filter and make `join` raise `TypeError`. -/
def joinHeader (l : List (Option String)) : Except PyErr String :=
  match optsToStrings (dedupFirst (l.filter (fun c => c ≠ some ""))) with
  | some ss => .ok (String.intercalate " | " ss)
  | none => .error .typeError

/-- Lines 146-182: reconstruct a single table.  Computes the header-row
set, the header prefix, fills the grid, flattens the header columns, and
builds the DataFrame contents. -/
def reconstructTable (t : Table) : Except PyErr PandasTable :=
  match fillGrid t with
  | .error e => .error e
  | .ok g =>
    let m := max_header_prefix_row (header_rows t.cells)
    let rows := toRows t.num_rows t.num_cols g
    let hdr := rows.take (m + 1).toNat
    match exMapM joinHeader
        ((List.range t.num_cols).map (fun c => hdr.map (fun row => row.getD c none))) with
    | .error e => .error e
    | .ok labels =>
      .ok { column_labels := if 0 ≤ m then some labels else none,
            data_rows := rows.drop (m + 1).toNat }

/-- One iteration of the element loop (lines 144-185): a table element
with a non-null `table` field is reconstructed, everything else is paired
with `None`.  The `and` short-circuits exactly as in Python. -/
def processElement (e : Element) : Except PyErr (Element × Option PandasTable) :=
  if e.type = "table" then
    match e.table with
    | some t =>
      match reconstructTable t with
      | .error err => .error err
      | .ok df => .ok (e, some df)
    | none => .ok (e, none)
  else .ok (e, none)

/-- Lines 143-187: `tables_to_pandas`.  An uncaught exception from any
element's reconstruction aborts the whole call. -/
def tables_to_pandas (data : PartitionData) :
    Except PyErr (List (Element × Option PandasTable)) :=
  exMapM processElement data.elements

/-- Whether all of a cell's assignments are well-defined and in bounds:
its span accesses succeed and every single write is within the grid. -/
def cellOK (m : Int) (h w : Nat) (cell : Cell) : Bool :=
  match cellWrites m cell with
  | none => false
  | some ws => ws.all (validWrite h w)

/-- Total version of `fillCell` (what a successful `fillCell` computes). -/
def applyCell (m : Int) (h w : Nat) (g : GridF) (cell : Cell) : GridF :=
  ((cellWrites m cell).getD []).foldl (applyWriteF h w) g

theorem gridWrite_valid {h w : Nat} {t : Int × Int × String} (g : GridF)
    (hv : validWrite h w t = true) :
    gridWrite h w g t = .ok (applyWriteF h w g t) := by
  unfold validWrite at hv
  unfold gridWrite applyWriteF
  rcases h1 : npIndex h t.1 with _ | ri <;> rcases h2 : npIndex w t.2.1 with _ | ci <;>
    simp [h1, h2] at hv ⊢

theorem gridWrite_invalid {h w : Nat} {t : Int × Int × String} (g : GridF)
    (hv : validWrite h w t = false) :
    gridWrite h w g t = .error .indexError := by
  unfold validWrite at hv
  unfold gridWrite
  rcases h1 : npIndex h t.1 with _ | ri <;> rcases h2 : npIndex w t.2.1 with _ | ci <;>
    simp [h1, h2] at hv ⊢

theorem exFoldl_gridWrite_eq (h w : Nat) (ws : List (Int × Int × String)) (g : GridF) :
    exFoldl (gridWrite h w) g ws =
      if ws.all (validWrite h w) then .ok (ws.foldl (applyWriteF h w) g)
      else .error .indexError := by
  induction ws generalizing g with
  | nil => simp [exFoldl]
  | cons x xs ih =>
    rcases hv : validWrite h w x with _ | _
    · rw [exFoldl, gridWrite_invalid g hv]
      simp [hv]
    · rw [exFoldl, gridWrite_valid g hv]
      simp only [List.all_cons, hv, Bool.true_and, List.foldl_cons]
      exact ih (applyWriteF h w g x)

theorem fillCell_ok {m : Int} {h w : Nat} {cell : Cell} (g : GridF)
    (hc : cellOK m h w cell = true) :
    fillCell m h w g cell = .ok (applyCell m h w g cell) := by
  unfold cellOK at hc
  rcases hw : cellWrites m cell with _ | ws
  · rw [hw] at hc; simp at hc
  · rw [hw] at hc
    simp only at hc
    simp only [fillCell, applyCell, hw, Option.getD_some]
    rw [exFoldl_gridWrite_eq, hc]
    simp

theorem fillCell_error {m : Int} {h w : Nat} {cell : Cell} (g : GridF)
    (hc : cellOK m h w cell = false) :
    fillCell m h w g cell = .error .indexError := by
  unfold cellOK at hc
  rcases hw : cellWrites m cell with _ | ws
  · simp only [fillCell, hw]
  · rw [hw] at hc
    simp only at hc
    simp only [fillCell, hw]
    rw [exFoldl_gridWrite_eq, hc]
    simp

/-- Master characterization of the fill loop: it succeeds iff every cell's
assignments are well-defined and in bounds, in which case it computes the
total left fold, and otherwise it raises `IndexError`. -/
theorem fillCells_eq (m : Int) (h w : Nat) (cells : List Cell) (g : GridF) :
    fillCells m h w g cells =
      if cells.all (cellOK m h w) then .ok (cells.foldl (applyCell m h w) g)
      else .error .indexError := by
  induction cells generalizing g with
  | nil => simp [fillCells, exFoldl]
  | cons x xs ih =>
    rcases hc : cellOK m h w x with _ | _
    · rw [fillCells, exFoldl, fillCell_error g hc]
      simp [hc]
    · rw [fillCells, exFoldl, fillCell_ok g hc]
      simp only [List.all_cons, hc, Bool.true_and, List.foldl_cons]
      exact ih (applyCell m h w g x)

/-- The header-prefix value as the C1 claim describes it: the smallest
index `i` with `H[i] != i` when one exists (the stopping index itself),
otherwise `len(H) - 1`, which is `-1` when `H` is empty. -/
def claimMaxHeader (hrows : List Int) : Int :=
  match (List.range hrows.length).find? (fun i => hrows.getD i 0 != (i : Int)) with
  | some i => (i : Int)
  | none => (hrows.length : Int) - 1

theorem prefix_scan_eq (l : List Int) (k : Nat) :
    prefix_scan l k =
      match (List.range l.length).find? (fun i => l.getD i 0 != ((i + k : Nat) : Int)) with
      | some i => ((i + k : Nat) : Int)
      | none => (k : Int) + l.length - 1 := by
  induction l generalizing k with
  | nil =>
    cases k with
    | zero => simp [prefix_scan]
    | succ n => simp [prefix_scan]
  | cons a t ih =>
    rw [List.length_cons, List.range_succ_eq_map, List.find?_cons]
    rcases ha : (a :: t).getD 0 0 != ((0 + k : Nat) : Int) with _ | _
    · have ha2 : a = ((k : Nat) : Int) := by
        simpa using ha
      have hif : prefix_scan (a :: t) k = prefix_scan t (k + 1) := by
        simp only [prefix_scan]
        rw [if_pos ha2]
      rw [hif, ih (k + 1), List.find?_map]
      have hpred : ((fun i => t.getD i 0 != ((i + (k + 1) : Nat) : Int)) : Nat → Bool) =
          (fun i => (a :: t).getD i 0 != ((i + k : Nat) : Int)) ∘ Nat.succ := by
        funext i
        simp only [Function.comp_apply, List.getD_cons_succ]
        have hc : ((i + (k + 1) : Nat) : Int) = ((Nat.succ i + k : Nat) : Int) := by
          push_cast
          omega
        rw [hc]
      rw [hpred]
      rcases hf : List.find? ((fun i => (a :: t).getD i 0 != ((i + k : Nat) : Int)) ∘ Nat.succ)
          (List.range t.length) with _ | j
      · simp only [hf]
        simp only [Option.map_none']
        push_cast
        ring
      · simp only [hf]
        simp only [Option.map_some', Nat.succ_eq_add_one]
        push_cast
        ring
    · have hne : ¬ a = ((k : Nat) : Int) := by
        simp only [List.getD_cons_zero, Nat.zero_add, bne_iff_ne, ne_eq] at ha
        exact ha
      have hif : prefix_scan (a :: t) k = (k : Int) := by
        simp only [prefix_scan]
        rw [if_neg hne]
      rw [hif]
      simp

/-- Claim C1: for every table, the computed `max_header_prefix_row` over
the sorted deduplicated header-row list `H` equals the smallest index `i`
with `H[i] != i` when one exists (the stopping index itself, not `i - 1`),
and otherwise `len(H) - 1` (`-1` when `H` is empty); in particular for
`H = [0, 1, 2, 4]` the result is `3`. -/
theorem max_header_prefix_row_correct (t : Table) :
    max_header_prefix_row (header_rows t.cells) = claimMaxHeader (header_rows t.cells) ∧
    max_header_prefix_row [0, 1, 2, 4] = 3 := by
  constructor
  · have hmain := prefix_scan_eq (header_rows t.cells) 0
    rw [max_header_prefix_row, hmain, claimMaxHeader]
    have hpred : ((fun i => (header_rows t.cells).getD i 0 != ((i + 0 : Nat) : Int)) : Nat → Bool) =
        (fun i => (header_rows t.cells).getD i 0 != (i : Int)) := by
      funext i
      rw [Nat.add_zero]
    rw [hpred]
    rcases hf : List.find? (fun i => (header_rows t.cells).getD i 0 != (i : Int))
        (List.range (header_rows t.cells).length) with _ | j
    · simp only [hf]
      simp
    · simp only [hf]
      simp
  · rfl

/-- Well-formedness of one cell relative to an `h × w` grid, as the claims
assume it: non-empty spans whose indices lie in `[0, num_rows)` and
`[0, num_cols)` respectively. -/
abbrev cellWF (h w : Nat) (cell : Cell) : Prop :=
  cell.rows ≠ [] ∧ cell.cols ≠ [] ∧
    (∀ r ∈ cell.rows, 0 ≤ r ∧ r < (h : Int)) ∧
    (∀ c ∈ cell.cols, 0 ≤ c ∧ c < (w : Int))

/-- The write sequence of one cell exactly as the C2 claim words it: a
header cell starting inside the header prefix writes its content into
every column of `cols` at row `rows[0]` and `""` over the rest of its
span; any other cell writes its content only at `(rows[0], cols[0])` and
`""` over the rest of its span. -/
def claimCellWrites (m : Int) (cell : Cell) : List (Int × Int × String) :=
  if cell.is_header = true ∧ cell.rows.headD 0 ≤ m then
    cell.cols.map (fun c => (cell.rows.headD 0, c, cell.content)) ++
      cell.rows.tail.flatMap (fun r => cell.cols.map (fun c => (r, c, "")))
  else
    (cell.rows.headD 0, cell.cols.headD 0, cell.content) ::
      (cell.cols.tail.map (fun c => (cell.rows.headD 0, c, "")) ++
       cell.rows.tail.flatMap (fun r => cell.cols.map (fun c => (r, c, ""))))

/-- A claim-level write at the non-negative grid coordinates the claims
assume. -/
def claimSetW (g : GridF) (t : Int × Int × String) : GridF :=
  setF g t.1.toNat t.2.1.toNat t.2.2

/-- The dense grid as the C2 claim describes it: scan the cells in input
order, each performing its claimed writes, later writes overwriting
earlier ones. -/
def claimGrid (t : Table) : GridF :=
  t.cells.foldl
    (fun g cell =>
      (claimCellWrites (max_header_prefix_row (header_rows t.cells)) cell).foldl
        claimSetW g)
    emptyGridF

theorem cellWrites_of_wf {m : Int} {cell : Cell}
    (hr : cell.rows ≠ []) (hc : cell.cols ≠ []) :
    cellWrites m cell = some (claimCellWrites m cell) := by
  rcases cell with ⟨rows, cols, content, hdr⟩
  rcases rows with _ | ⟨r0, rtail⟩
  · simp at hr
  rcases cols with _ | ⟨c0, ctail⟩
  · simp at hc
  cases hdr with
  | false => simp [cellWrites, elseWrites, claimCellWrites]
  | true =>
    by_cases hm : r0 ≤ m
    · simp [cellWrites, claimCellWrites, hm]
    · simp [cellWrites, elseWrites, claimCellWrites, hm]

theorem claimCellWrites_mem {m : Int} {cell : Cell} {x : Int × Int × String}
    (hr : cell.rows ≠ []) (hc : cell.cols ≠ [])
    (hx : x ∈ claimCellWrites m cell) :
    x.1 ∈ cell.rows ∧ x.2.1 ∈ cell.cols := by
  rcases cell with ⟨rows, cols, content, hdr⟩
  rcases rows with _ | ⟨r0, rtail⟩
  · simp at hr
  rcases cols with _ | ⟨c0, ctail⟩
  · simp at hc
  unfold claimCellWrites at hx
  split at hx
  · simp only [List.headD_cons, List.tail_cons, List.mem_append, List.mem_map,
      List.mem_flatMap] at hx
    rcases hx with ⟨c, hcmem, rfl⟩ | ⟨r, hrmem, c, hcmem, rfl⟩
    · exact ⟨List.mem_cons_self _ _, hcmem⟩
    · exact ⟨List.mem_cons_of_mem _ hrmem, hcmem⟩
  · rcases List.mem_cons.mp hx with rfl | hx2
    · exact ⟨List.mem_cons_self _ _, List.mem_cons_self _ _⟩
    · simp only [List.headD_cons, List.tail_cons, List.mem_append, List.mem_map,
        List.mem_flatMap] at hx2
      rcases hx2 with ⟨c, hcmem, rfl⟩ | ⟨r, hrmem, c, hcmem, rfl⟩
      · exact ⟨List.mem_cons_self _ _, List.mem_cons_of_mem _ hcmem⟩
      · exact ⟨List.mem_cons_of_mem _ hrmem, hcmem⟩

theorem claimCellWrites_cover {m : Int} {cell : Cell} {r c : Int}
    (hr : r ∈ cell.rows) (hc : c ∈ cell.cols) :
    ∃ v, (r, c, v) ∈ claimCellWrites m cell := by
  rcases cell with ⟨rows, cols, content, hdr⟩
  rcases rows with _ | ⟨r0, rtail⟩
  · simp at hr
  rcases cols with _ | ⟨c0, ctail⟩
  · simp at hc
  unfold claimCellWrites
  split <;> simp only [List.headD_cons, List.tail_cons]
  · rcases List.mem_cons.mp hr with rfl | hrt
    · exact ⟨content, List.mem_append_left _ (List.mem_map.mpr ⟨c, hc, rfl⟩)⟩
    · exact ⟨"", List.mem_append_right _
        (List.mem_flatMap.mpr ⟨r, hrt, List.mem_map.mpr ⟨c, hc, rfl⟩⟩)⟩
  · rcases List.mem_cons.mp hr with rfl | hrt
    · rcases List.mem_cons.mp hc with rfl | hct
      · exact ⟨content, List.mem_cons_self _ _⟩
      · exact ⟨"", List.mem_cons_of_mem _ (List.mem_append_left _
          (List.mem_map.mpr ⟨c, hct, rfl⟩))⟩
    · exact ⟨"", List.mem_cons_of_mem _ (List.mem_append_right _
        (List.mem_flatMap.mpr ⟨r, hrt, List.mem_map.mpr ⟨c, hc, rfl⟩⟩))⟩

theorem npIndex_nonneg {n : Nat} {i : Int} (h0 : 0 ≤ i) (hn : i < (n : Int)) :
    npIndex n i = some i.toNat := by
  simp [npIndex, h0, hn]

theorem npIndex_eq_none {n : Nat} {i : Int}
    (h : i < -(n : Int) ∨ (n : Int) ≤ i) : npIndex n i = none := by
  unfold npIndex
  split
  · rename_i h1
    omega
  · split
    · rename_i h1 h2
      omega
    · rfl

theorem validWrite_of_wf {h w : Nat} {x : Int × Int × String}
    (h1 : 0 ≤ x.1 ∧ x.1 < (h : Int)) (h2 : 0 ≤ x.2.1 ∧ x.2.1 < (w : Int)) :
    validWrite h w x = true := by
  unfold validWrite
  rw [npIndex_nonneg h1.1 h1.2, npIndex_nonneg h2.1 h2.2]
  rfl

theorem cellOK_of_wf {m : Int} {h w : Nat} {cell : Cell} (hwf : cellWF h w cell) :
    cellOK m h w cell = true := by
  obtain ⟨hr, hc, hrb, hcb⟩ := hwf
  unfold cellOK
  rw [cellWrites_of_wf hr hc]
  show (claimCellWrites m cell).all (validWrite h w) = true
  rw [List.all_eq_true]
  intro x hx
  obtain ⟨hxr, hxc⟩ := claimCellWrites_mem hr hc hx
  exact validWrite_of_wf (hrb _ hxr) (hcb _ hxc)

theorem applyWriteF_eq_claimSetW {h w : Nat} {x : Int × Int × String} (g : GridF)
    (h1 : 0 ≤ x.1 ∧ x.1 < (h : Int)) (h2 : 0 ≤ x.2.1 ∧ x.2.1 < (w : Int)) :
    applyWriteF h w g x = claimSetW g x := by
  unfold applyWriteF claimSetW
  rw [npIndex_nonneg h1.1 h1.2, npIndex_nonneg h2.1 h2.2]

theorem foldl_congr_mem {f g : β → α → β} (l : List α) (b : β)
    (h : ∀ a ∈ l, ∀ x, f x a = g x a) : l.foldl f b = l.foldl g b := by
  induction l generalizing b with
  | nil => rfl
  | cons a t ih =>
    rw [List.foldl_cons, List.foldl_cons, h a (List.mem_cons_self a t)]
    exact ih _ (fun a ha x => h a (List.mem_cons_of_mem _ ha) x)

/-- Claim C2: for every table whose cell spans are non-empty and lie
inside the grid bounds, the fill loop succeeds and computes exactly the
grid described by the claim: cells are scanned in input order with later
writes overwriting earlier ones, a header cell starting inside the header
prefix replicates its content across its column span on its top row and
blanks the rest of its span, and every other cell puts its content at its
top-left position and blanks the rest of its span. -/
theorem grid_fill_correct (t : Table)
    (hwf : ∀ cell ∈ t.cells, cellWF t.num_rows t.num_cols cell) :
    fillGrid t = .ok (claimGrid t) := by
  unfold fillGrid claimGrid
  rw [fillCells_eq]
  have hall : t.cells.all
      (cellOK (max_header_prefix_row (header_rows t.cells)) t.num_rows t.num_cols) = true := by
    rw [List.all_eq_true]
    intro cell hcell
    exact cellOK_of_wf (hwf cell hcell)
  rw [hall]
  simp only [if_true]
  congr 1
  apply foldl_congr_mem
  intro cell hcell g
  obtain ⟨hr, hc, hrb, hcb⟩ := hwf cell hcell
  unfold applyCell
  rw [cellWrites_of_wf hr hc]
  simp only [Option.getD_some]
  apply foldl_congr_mem
  intro x hx g2
  obtain ⟨hxr, hxc⟩ := claimCellWrites_mem hr hc hx
  exact applyWriteF_eq_claimSetW g2 (hrb _ hxr) (hcb _ hxc)

/-- The spec's header-contiguity example table: a 3 × 2 grid, one header
cell spanning rows 0-1 and both columns, and two data cells on row 2. -/
def exHeaderTable : Table :=
  { num_rows := 3, num_cols := 2,
    cells := [
      { rows := [0, 1], cols := [0, 1], content := "Name", is_header := true },
      { rows := [2], cols := [0], content := "Alice", is_header := false },
      { rows := [2], cols := [1], content := "30", is_header := false } ] }

theorem grid_fill_correct_witness :
    (∀ cell ∈ exHeaderTable.cells,
        cellWF exHeaderTable.num_rows exHeaderTable.num_cols cell) ∧
    fillGrid exHeaderTable = .ok (claimGrid exHeaderTable) :=
  ⟨by decide, grid_fill_correct exHeaderTable (by decide)⟩

theorem dedupFirstAux_mem_of_mem [DecidableEq α] {seen : List α} {l : List α} {x : α}
    (hx : x ∈ dedupFirstAux seen l) : x ∈ l := by
  induction l generalizing seen with
  | nil => simp [dedupFirstAux] at hx
  | cons a t ih =>
    unfold dedupFirstAux at hx
    split at hx
    · exact List.mem_cons_of_mem _ (ih hx)
    · rcases List.mem_cons.mp hx with rfl | hx2
      · exact List.mem_cons_self _ _
      · exact List.mem_cons_of_mem _ (ih hx2)

theorem dedupFirstAux_mem_of_not_seen [DecidableEq α] {seen : List α} {l : List α} {x : α}
    (hx : x ∈ l) (hs : x ∉ seen) : x ∈ dedupFirstAux seen l := by
  induction l generalizing seen with
  | nil => simp at hx
  | cons a t ih =>
    unfold dedupFirstAux
    rcases List.mem_cons.mp hx with rfl | hx2
    · split
      · rename_i hmem
        exact absurd hmem hs
      · exact List.mem_cons_self _ _
    · split
      · exact ih hx2 hs
      · by_cases hxa : x = a
        · subst hxa
          exact List.mem_cons_self _ _
        · refine List.mem_cons_of_mem _ (ih hx2 ?_)
          intro hmem
          rcases List.mem_cons.mp hmem with h1 | h1
          · exact hxa h1
          · exact hs h1

theorem dedupFirstAux_map_some {seen : List String} {l : List String} :
    dedupFirstAux (seen.map some) (l.map some) = (dedupFirstAux seen l).map some := by
  induction l generalizing seen with
  | nil => simp [dedupFirstAux]
  | cons a t ih =>
    unfold dedupFirstAux
    simp only [List.map_cons]
    by_cases hmem : a ∈ seen
    · rw [if_pos (List.mem_map_of_mem _ hmem), if_pos hmem]
      exact ih
    · have hnm : some a ∉ seen.map some := by
        intro hcon
        obtain ⟨b, hb, hba⟩ := List.mem_map.mp hcon
        cases Option.some_injective _ hba
        exact hmem hb
      rw [if_neg hnm, if_neg hmem, List.map_cons]
      rw [show (some a :: seen.map some) = ((a :: seen).map some) from rfl]
      rw [ih]

theorem optsToStrings_some {xs : List (Option String)} {ss : List String}
    (h : optsToStrings xs = some ss) : xs = ss.map some := by
  induction xs generalizing ss with
  | nil =>
    simp [optsToStrings] at h
    subst h
    rfl
  | cons a t ih =>
    rcases a with _ | s
    · simp [optsToStrings] at h
    · unfold optsToStrings at h
      rcases ht : optsToStrings t with _ | ts
      · rw [ht] at h
        simp at h
      · rw [ht] at h
        simp only [Option.map_some'] at h
        cases h
        rw [ih ht, List.map_cons]

theorem optsToStrings_of_no_none {xs : List (Option String)}
    (h : ∀ x ∈ xs, x ≠ none) : ∃ ss, optsToStrings xs = some ss := by
  induction xs with
  | nil => exact ⟨[], rfl⟩
  | cons a t ih =>
    rcases a with _ | s
    · exact absurd rfl (h none (List.mem_cons_self _ _))
    · obtain ⟨ts, hts⟩ := ih (fun x hx => h x (List.mem_cons_of_mem _ hx))
      exact ⟨s :: ts, by simp [optsToStrings, hts]⟩

theorem no_none_eq_map_filterMap {l : List (Option String)}
    (h : ∀ x ∈ l, x ≠ none) : l = (l.filterMap id).map some := by
  induction l with
  | nil => rfl
  | cons a t ih =>
    rcases a with _ | s
    · exact absurd rfl (h none (List.mem_cons_self _ _))
    · rw [List.filterMap_cons]
      simp only [id_eq, List.map_cons]
      rw [← ih (fun x hx => h x (List.mem_cons_of_mem _ hx))]

theorem filter_ne_empty_map_some (xs : List String) :
    (xs.map some).filter (fun c => c ≠ some "") =
      (xs.filter (fun s => s ≠ "")).map some := by
  rw [List.filter_map]
  congr 1
  apply List.filter_congr
  intro s _
  rcases eq_or_ne s "" with rfl | hs
  · simp
  · simp [hs]

theorem joinHeader_ok_eq {l : List (Option String)} {s : String}
    (h : joinHeader l = .ok s) :
    s = String.intercalate " | "
      (dedupFirst ((l.filterMap id).filter (fun v => v ≠ ""))) := by
  unfold joinHeader at h
  rcases hopt : optsToStrings (dedupFirst (l.filter (fun c => c ≠ some ""))) with _ | ss
  · rw [hopt] at h
    simp at h
  · rw [hopt] at h
    simp only [Except.ok.injEq] at h
    subst h
    have hdd := optsToStrings_some hopt
    have hnol : ∀ x ∈ l, x ≠ none := by
      intro x hx hxn
      subst hxn
      have hfl : (none : Option String) ∈ l.filter (fun c => c ≠ some "") := by
        rw [List.mem_filter]
        exact ⟨hx, by simp⟩
      have hdd2 : (none : Option String) ∈
          dedupFirst (l.filter (fun c => c ≠ some "")) :=
        dedupFirstAux_mem_of_not_seen hfl (by simp)
      rw [hdd] at hdd2
      obtain ⟨b, _, hb⟩ := List.mem_map.mp hdd2
      exact Option.noConfusion hb
    have hl : l = (l.filterMap id).map some := no_none_eq_map_filterMap hnol
    have hfl2 : l.filter (fun c => c ≠ some "") =
        ((l.filterMap id).filter (fun v => v ≠ "")).map some := by
      conv_lhs => rw [hl]
      exact filter_ne_empty_map_some _
    have hdd3 : dedupFirst (l.filter (fun c => c ≠ some "")) =
        (dedupFirst ((l.filterMap id).filter (fun v => v ≠ ""))).map some := by
      rw [hfl2]
      exact @dedupFirstAux_map_some [] _
    rw [hdd3] at hdd
    have hss : ss = dedupFirst ((l.filterMap id).filter (fun v => v ≠ "")) := by
      have hinj : Function.Injective (Option.some : String → Option String) :=
        Option.some_injective _
      exact (List.map_injective_iff.mpr hinj hdd).symm
    rw [hss]

theorem joinHeader_ok_of_no_none {l : List (Option String)}
    (h : ∀ x ∈ l, x ≠ none) : ∃ s, joinHeader l = .ok s := by
  have hfl : ∀ x ∈ dedupFirst (l.filter (fun c => c ≠ some "")), x ≠ none := by
    intro x hx
    have hx2 := dedupFirstAux_mem_of_mem hx
    exact h x (List.mem_filter.mp hx2).1
  obtain ⟨ss, hss⟩ := optsToStrings_of_no_none hfl
  refine ⟨String.intercalate " | " ss, ?_⟩
  unfold joinHeader
  rw [hss]

theorem exMapM_ok_length {f : α → Except ε β} {l : List α} {ys : List β}
    (h : exMapM f l = .ok ys) : ys.length = l.length := by
  induction l generalizing ys with
  | nil =>
    simp only [exMapM, Except.ok.injEq] at h
    subst h
    rfl
  | cons a t ih =>
    unfold exMapM at h
    rcases hfa : f a with e | b <;> rw [hfa] at h
    · simp at h
    · rcases hrest : exMapM f t with e | bs <;> rw [hrest] at h
      · simp at h
      · simp only [Except.ok.injEq] at h
        subst h
        simp [ih hrest]

theorem exMapM_ok_getD {f : α → Except ε β} {l : List α} {ys : List β}
    (h : exMapM f l = .ok ys) (c : Nat) (hc : c < l.length) (d : α) (d2 : β) :
    f (l.getD c d) = .ok (ys.getD c d2) := by
  induction l generalizing ys c with
  | nil => simp at hc
  | cons a t ih =>
    unfold exMapM at h
    rcases hfa : f a with e | b <;> rw [hfa] at h
    · simp at h
    · rcases hrest : exMapM f t with e | bs <;> rw [hrest] at h
      · simp at h
      · simp only [Except.ok.injEq] at h
        subst h
        cases c with
        | zero => simpa using hfa
        | succ n =>
          simp only [List.getD_cons_succ]
          exact ih hrest n (by simpa using hc)

theorem exMapM_ok_of_forall {f : α → Except ε β} {l : List α}
    (h : ∀ a ∈ l, ∃ b, f a = .ok b) : ∃ ys, exMapM f l = .ok ys := by
  induction l with
  | nil => exact ⟨[], rfl⟩
  | cons a t ih =>
    obtain ⟨b, hb⟩ := h a (List.mem_cons_self _ _)
    obtain ⟨bs, hbs⟩ := ih (fun x hx => h x (List.mem_cons_of_mem _ hx))
    exact ⟨b :: bs, by simp [exMapM, hb, hbs]⟩

theorem exMapM_eq_ok_map {f : α → Except ε β} {g : α → β} {l : List α}
    (h : ∀ a ∈ l, f a = .ok (g a)) : exMapM f l = .ok (l.map g) := by
  induction l with
  | nil => rfl
  | cons a t ih =>
    have ha := h a (List.mem_cons_self _ _)
    have ht := ih (fun x hx => h x (List.mem_cons_of_mem _ hx))
    simp [exMapM, ha, ht]

/-- The flattened label of column `c` as the C3 claim words it: read the
header-region rows of column `c` top-to-bottom, keep the non-empty values,
drop every value equal to one already kept (preserving first-seen order),
and join the survivors with `" | "`. -/
def claimLabel (hdr : List (List (Option String))) (c : Nat) : String :=
  String.intercalate " | "
    (dedupFirst (((hdr.map (fun row => row.getD c none)).filterMap id).filter
      (fun v => v ≠ "")))

theorem reconstructTable_ok_inv {t : Table} {out : PandasTable}
    (hok : reconstructTable t = .ok out) :
    ∃ g labels, fillGrid t = .ok g ∧
      exMapM joinHeader ((List.range t.num_cols).map
        (fun c => ((toRows t.num_rows t.num_cols g).take
          (max_header_prefix_row (header_rows t.cells) + 1).toNat).map
            (fun row => row.getD c none))) = .ok labels ∧
      out = { column_labels :=
                if 0 ≤ max_header_prefix_row (header_rows t.cells) then some labels
                else none,
              data_rows := (toRows t.num_rows t.num_cols g).drop
                (max_header_prefix_row (header_rows t.cells) + 1).toNat } := by
  unfold reconstructTable at hok
  split at hok
  · exact absurd hok (by simp)
  · rename_i g hfill
    simp only at hok
    split at hok
    · exact absurd hok (by simp)
    · rename_i labels hmap
      simp only [Except.ok.injEq] at hok
      exact ⟨g, labels, hfill, hmap, hok.symm⟩

theorem map_range_getD {w c : Nat} {β : Type} (f : Nat → β) (d : β) (hc : c < w) :
    ((List.range w).map f).getD c d = f c := by
  have hlen : c < ((List.range w).map f).length := by simpa using hc
  rw [List.getD_eq_getElem _ _ hlen, List.getElem_map, List.getElem_range]

theorem gridOf_eq {t : Table} {g : GridF} (h : fillGrid t = .ok g) : gridOf t = g := by
  unfold gridOf
  rw [h]

/-- Claim C3: for every table whose reconstruction succeeds, if
`max_header_prefix_row < 0` the column labels are absent and the data rows
are the entire dense grid unchanged; if `max_header_prefix_row >= 0` the
labels are present with exactly `num_cols` entries, entry `c` being the
non-empty values of rows `0..max_header_prefix_row` of column `c`,
deduplicated preserving first-seen order and joined with `" | "`; and the
data rows are exactly rows `max_header_prefix_row + 1 ..` of the grid. -/
theorem header_flatten_correct (t : Table) (out : PandasTable)
    (hok : reconstructTable t = .ok out) :
    (max_header_prefix_row (header_rows t.cells) < 0 →
      out.column_labels = none ∧
      out.data_rows = toRows t.num_rows t.num_cols (gridOf t)) ∧
    (0 ≤ max_header_prefix_row (header_rows t.cells) →
      ∃ labels, out.column_labels = some labels ∧ labels.length = t.num_cols ∧
        ∀ c, c < t.num_cols → labels.getD c "" =
          claimLabel ((toRows t.num_rows t.num_cols (gridOf t)).take
            (max_header_prefix_row (header_rows t.cells) + 1).toNat) c) ∧
    out.data_rows = (toRows t.num_rows t.num_cols (gridOf t)).drop
      (max_header_prefix_row (header_rows t.cells) + 1).toNat := by
  obtain ⟨g, labels, hfill, hmap, hout⟩ := reconstructTable_ok_inv hok
  rw [gridOf_eq hfill]
  subst hout
  refine ⟨?_, ?_, rfl⟩
  · intro hneg
    constructor
    · simp only
      rw [if_neg (by omega)]
    · simp only
      have h0 : (max_header_prefix_row (header_rows t.cells) + 1).toNat = 0 := by
        omega
      rw [h0, List.drop_zero]
  · intro hpos
    refine ⟨labels, ?_, ?_, ?_⟩
    · simp only
      rw [if_pos hpos]
    · have hlen := exMapM_ok_length hmap
      simpa using hlen
    · intro c hc
      have hget := exMapM_ok_getD hmap c (by simpa using hc) [] ""
      rw [map_range_getD _ _ hc] at hget
      exact joinHeader_ok_eq hget

/-- The spec's header-flattening dedup example: two header rows with
`"Region"/"Region"` in column 0 and `"2023"/"Q1"` in column 1, plus one
data row. -/
def exDedupTable : Table :=
  { num_rows := 3, num_cols := 2,
    cells := [
      { rows := [0], cols := [0], content := "Region", is_header := true },
      { rows := [1], cols := [0], content := "Region", is_header := true },
      { rows := [0], cols := [1], content := "2023", is_header := true },
      { rows := [1], cols := [1], content := "Q1", is_header := true },
      { rows := [2], cols := [0], content := "east", is_header := false },
      { rows := [2], cols := [1], content := "5", is_header := false } ] }

def exDedupOut : PandasTable :=
  { column_labels := some ["Region", "2023 | Q1"],
    data_rows := [[some "east", some "5"]] }

theorem header_flatten_correct_witness :
    reconstructTable exDedupTable = .ok exDedupOut ∧
    (0 ≤ max_header_prefix_row (header_rows exDedupTable.cells) →
      ∃ labels, exDedupOut.column_labels = some labels ∧
        labels.length = exDedupTable.num_cols ∧
        ∀ c, c < exDedupTable.num_cols → labels.getD c "" =
          claimLabel ((toRows exDedupTable.num_rows exDedupTable.num_cols
            (gridOf exDedupTable)).take
            (max_header_prefix_row (header_rows exDedupTable.cells) + 1).toNat) c) :=
  ⟨rfl, (header_flatten_correct exDedupTable exDedupOut rfl).2.1⟩

theorem npIndex_natCast {n r : Nat} (h : r < n) : npIndex n (r : Int) = some r := by
  rw [npIndex_nonneg (Int.natCast_nonneg r) (by exact_mod_cast h)]
  simp

theorem applyWriteF_ne_none {h w : Nat} {g : GridF} {x : Int × Int × String} {r c : Nat}
    (hg : g r c ≠ none) : applyWriteF h w g x r c ≠ none := by
  rcases h1 : npIndex h x.1 with _ | ri <;> rcases h2 : npIndex w x.2.1 with _ | ci <;>
    simp only [applyWriteF, h1, h2]
  · exact hg
  · exact hg
  · exact hg
  · unfold setF
    split
    · simp
    · exact hg

theorem foldl_applyWriteF_ne_none {h w : Nat} {ws : List (Int × Int × String)}
    {g : GridF} {r c : Nat} (hg : g r c ≠ none) :
    (ws.foldl (applyWriteF h w) g) r c ≠ none := by
  induction ws generalizing g with
  | nil => exact hg
  | cons x xs ih => exact ih (applyWriteF_ne_none hg)

theorem foldl_applyWriteF_target {h w : Nat} {ws : List (Int × Int × String)}
    {g : GridF} {x : Int × Int × String} {r c : Nat}
    (hx : x ∈ ws) (hr : npIndex h x.1 = some r) (hc : npIndex w x.2.1 = some c) :
    (ws.foldl (applyWriteF h w) g) r c ≠ none := by
  induction ws generalizing g with
  | nil => simp at hx
  | cons y ys ih =>
    rcases List.mem_cons.mp hx with rfl | hx2
    · rw [List.foldl_cons]
      apply foldl_applyWriteF_ne_none
      simp only [applyWriteF, hr, hc]
      unfold setF
      simp
    · exact ih hx2

theorem foldl_applyCell_ne_none {m : Int} {h w : Nat} {cells : List Cell} {g : GridF}
    {r c : Nat} (hg : g r c ≠ none) :
    (cells.foldl (applyCell m h w) g) r c ≠ none := by
  induction cells generalizing g with
  | nil => exact hg
  | cons x xs ih =>
    rw [List.foldl_cons]
    apply ih
    unfold applyCell
    exact foldl_applyWriteF_ne_none hg

theorem foldl_applyCell_covered {m : Int} {h w : Nat} {cells : List Cell} {g : GridF}
    {r c : Nat} (hrh : r < h) (hcw : c < w)
    (hex : ∃ cell ∈ cells, cell.rows ≠ [] ∧ cell.cols ≠ [] ∧
      (r : Int) ∈ cell.rows ∧ (c : Int) ∈ cell.cols) :
    (cells.foldl (applyCell m h w) g) r c ≠ none := by
  induction cells generalizing g with
  | nil => simp at hex
  | cons x xs ih =>
    obtain ⟨cell, hcmem, hrne, hcne, hrm, hcm⟩ := hex
    rcases List.mem_cons.mp hcmem with rfl | hmem2
    · rw [List.foldl_cons]
      apply foldl_applyCell_ne_none
      unfold applyCell
      rw [cellWrites_of_wf hrne hcne]
      simp only [Option.getD_some]
      obtain ⟨v, hv⟩ := claimCellWrites_cover (m := m) hrm hcm
      exact foldl_applyWriteF_target hv (npIndex_natCast hrh) (npIndex_natCast hcw)
    · exact ih ⟨cell, hmem2, hrne, hcne, hrm, hcm⟩

theorem fillGrid_ok_of_wf {t : Table}
    (hwf : ∀ cell ∈ t.cells, cellWF t.num_rows t.num_cols cell) :
    fillGrid t = .ok (t.cells.foldl
      (applyCell (max_header_prefix_row (header_rows t.cells)) t.num_rows t.num_cols)
      emptyGridF) := by
  unfold fillGrid fillCells
  have hall : t.cells.all
      (cellOK (max_header_prefix_row (header_rows t.cells)) t.num_rows t.num_cols)
        = true := by
    rw [List.all_eq_true]
    intro cell hcell
    exact cellOK_of_wf (hwf cell hcell)
  rw [show exFoldl (fillCell (max_header_prefix_row (header_rows t.cells)) t.num_rows
      t.num_cols) emptyGridF t.cells = fillCells (max_header_prefix_row
      (header_rows t.cells)) t.num_rows t.num_cols emptyGridF t.cells from rfl]
  rw [fillCells_eq, hall]
  simp

/-- Claim C4: for every well-formed table (non-empty in-bounds spans whose
union covers every grid position), the fill succeeds and every position of
the assembled grid holds a written string, never the `None` initial
marker, which is itself distinguishable from the empty string. -/
theorem full_coverage (t : Table)
    (hwf : ∀ cell ∈ t.cells, cellWF t.num_rows t.num_cols cell)
    (hcov : ∀ r, r < t.num_rows → ∀ c, c < t.num_cols →
      ∃ cell ∈ t.cells, (r : Int) ∈ cell.rows ∧ (c : Int) ∈ cell.cols) :
    (∃ g, fillGrid t = .ok g) ∧
    (∀ r, r < t.num_rows → ∀ c, c < t.num_cols → gridOf t r c ≠ none) ∧
    (none : Option String) ≠ some "" := by
  have hfill := fillGrid_ok_of_wf hwf
  refine ⟨⟨_, hfill⟩, ?_, by simp⟩
  intro r hr c hc
  rw [gridOf_eq hfill]
  obtain ⟨cell, hmem, hrm, hcm⟩ := hcov r hr c hc
  obtain ⟨hrne, hcne, _, _⟩ := hwf cell hmem
  exact foldl_applyCell_covered hr hc ⟨cell, hmem, hrne, hcne, hrm, hcm⟩

theorem full_coverage_witness :
    (∀ cell ∈ exHeaderTable.cells,
        cellWF exHeaderTable.num_rows exHeaderTable.num_cols cell) ∧
    (∀ r, r < exHeaderTable.num_rows → ∀ c, c < exHeaderTable.num_cols →
      ∃ cell ∈ exHeaderTable.cells, (r : Int) ∈ cell.rows ∧ (c : Int) ∈ cell.cols) ∧
    (∀ r, r < exHeaderTable.num_rows → ∀ c, c < exHeaderTable.num_cols →
      gridOf exHeaderTable r c ≠ none) :=
  ⟨by decide, by decide,
    (full_coverage exHeaderTable (by decide) (by decide)).2.1⟩

theorem cellWrites_none_of_rows_nil {m : Int} {cell : Cell}
    (hrows : cell.rows = []) : cellWrites m cell = none := by
  by_cases hh : cell.is_header
  · simp [cellWrites, hh, hrows]
  · simp [cellWrites, elseWrites, hh, hrows]

theorem cellOK_false_of_oob {m : Int} {h w : Nat} {cell : Cell}
    (hcne : cell.cols ≠ [])
    (hoob : (∃ r ∈ cell.rows, r < -(h : Int) ∨ (h : Int) ≤ r) ∨
            (∃ c ∈ cell.cols, c < -(w : Int) ∨ (w : Int) ≤ c)) :
    cellOK m h w cell = false := by
  rcases hrows : cell.rows with _ | ⟨r0, rtail⟩
  · unfold cellOK
    rw [cellWrites_none_of_rows_nil hrows]
  · have hrne : cell.rows ≠ [] := by rw [hrows]; simp
    unfold cellOK
    rw [cellWrites_of_wf hrne hcne]
    show (claimCellWrites m cell).all (validWrite h w) = false
    rw [Bool.eq_false_iff]
    intro hall
    rw [List.all_eq_true] at hall
    rcases hoob with ⟨r, hrm, hr⟩ | ⟨c, hcm, hc⟩
    · obtain ⟨c0, hc0⟩ := List.exists_mem_of_ne_nil _ hcne
      obtain ⟨v, hv⟩ := claimCellWrites_cover (m := m) hrm hc0
      have hval := hall _ hv
      unfold validWrite at hval
      rw [npIndex_eq_none hr] at hval
      simp at hval
    · have hr0m : r0 ∈ cell.rows := by rw [hrows]; exact List.mem_cons_self _ _
      obtain ⟨v, hv⟩ := claimCellWrites_cover (m := m) hr0m hcm
      have hval := hall _ hv
      unfold validWrite at hval
      rw [npIndex_eq_none hc] at hval
      simp at hval

theorem fillCells_error_of_bad_cell {m : Int} {h w : Nat} {cells : List Cell}
    {g : GridF} (hex : ∃ cell ∈ cells, cellOK m h w cell = false) :
    fillCells m h w g cells = .error .indexError := by
  rw [fillCells_eq]
  obtain ⟨cell, hmem, hbad⟩ := hex
  have hall : cells.all (cellOK m h w) = false := by
    rw [Bool.eq_false_iff]
    intro hall
    rw [List.all_eq_true] at hall
    rw [hall cell hmem] at hbad
    exact Bool.noConfusion hbad
  rw [hall]
  simp

theorem reconstructTable_error_of_fill {t : Table} {e : PyErr}
    (h : fillGrid t = .error e) : reconstructTable t = .error e := by
  unfold reconstructTable
  rw [h]

/-- A table with a cell whose row index `-1` lies outside
`[0, num_rows)`: numpy wraps it to the last row without any error. -/
def exNegIdxTable : Table :=
  { num_rows := 3, num_cols := 1,
    cells := [
      { rows := [0], cols := [0], content := "a", is_header := false },
      { rows := [-1], cols := [0], content := "z", is_header := false } ] }

/-- Counterexample to claim C5 as stated: `exNegIdxTable` contains a cell
whose `rows` holds `-1`, an index outside `[0, num_rows)`, yet
reconstruction does not fail — numpy wraps the negative index to row 2
and a full output pair is produced. -/
theorem oob_rejection_counterexample :
    (∃ cell ∈ exNegIdxTable.cells, ∃ r ∈ cell.rows,
      ¬ (0 ≤ r ∧ r < (exNegIdxTable.num_rows : Int))) ∧
    reconstructTable exNegIdxTable =
      .ok { column_labels := none,
            data_rows := [[some "a"], [none], [some "z"]] } :=
  ⟨by decide, rfl⟩

/-- Claim C5 amended: a cell index outside `[0, num_rows)` or
`[0, num_cols)` only causes an error when it is also outside the numpy
range `[-num_rows, num_rows)` / `[-num_cols, num_cols)` (negative
in-range indices wrap silently); for every table whose cells all have
non-empty `cols` and that contains a cell with such an out-of-range
index, reconstruction fails with `IndexError` and no output pair is
produced. -/
theorem oob_rejection (t : Table)
    (hcols : ∀ cell ∈ t.cells, cell.cols ≠ [])
    (hoob : ∃ cell ∈ t.cells,
      (∃ r ∈ cell.rows, r < -(t.num_rows : Int) ∨ (t.num_rows : Int) ≤ r) ∨
      (∃ c ∈ cell.cols, c < -(t.num_cols : Int) ∨ (t.num_cols : Int) ≤ c)) :
    reconstructTable t = .error PyErr.indexError := by
  apply reconstructTable_error_of_fill
  unfold fillGrid
  apply fillCells_error_of_bad_cell
  obtain ⟨cell, hmem, hoobc⟩ := hoob
  exact ⟨cell, hmem, cellOK_false_of_oob (hcols cell hmem) hoobc⟩

/-- The spec's own out-of-bounds example: `rows = [5]` on a 3-row table. -/
def exOobTable : Table :=
  { num_rows := 3, num_cols := 1,
    cells := [ { rows := [5], cols := [0], content := "x", is_header := false } ] }

theorem oob_rejection_witness :
    (∀ cell ∈ exOobTable.cells, cell.cols ≠ []) ∧
    (∃ cell ∈ exOobTable.cells,
      (∃ r ∈ cell.rows, r < -(exOobTable.num_rows : Int) ∨
        (exOobTable.num_rows : Int) ≤ r) ∨
      (∃ c ∈ cell.cols, c < -(exOobTable.num_cols : Int) ∨
        (exOobTable.num_cols : Int) ≤ c)) ∧
    reconstructTable exOobTable = .error PyErr.indexError :=
  ⟨by decide, by decide, oob_rejection exOobTable (by decide) (by decide)⟩

theorem cellOK_false_of_empty {m : Int} {h w : Nat} {cell : Cell}
    (hbad : cell.rows = [] ∨
      (cell.cols = [] ∧ (cell.is_header = false ∨ ¬ cell.rows.headD 0 ≤ m))) :
    cellOK m h w cell = false := by
  rcases hbad with hrows | ⟨hcols, hrest⟩
  · unfold cellOK
    rw [cellWrites_none_of_rows_nil hrows]
  · have hcw : cellWrites m cell = none := by
      rcases hrows2 : cell.rows with _ | ⟨r0, rtail⟩
      · exact cellWrites_none_of_rows_nil hrows2
      · rcases hh : cell.is_header with _ | _
        · simp [cellWrites, elseWrites, hh, hrows2, hcols]
        · have hm2 : ¬ r0 ≤ m := by
            rcases hrest with hfalse | hm
            · rw [hh] at hfalse
              exact Bool.noConfusion hfalse
            · rw [hrows2] at hm
              simpa using hm
          simp [cellWrites, elseWrites, hh, hrows2, hcols, hm2]
    unfold cellOK
    rw [hcw]

/-- A table containing a header cell with an empty `cols` whose span
starts inside the header prefix: the cell's two `for col in ...` loops
iterate zero times, so it writes nothing and raises nothing. -/
def exEmptyColsTable : Table :=
  { num_rows := 1, num_cols := 1,
    cells := [
      { rows := [0], cols := [0], content := "H", is_header := true },
      { rows := [0], cols := [], content := "X", is_header := true } ] }

/-- Counterexample to claim C6 as stated: `exEmptyColsTable` contains a
cell with an empty `cols` sequence, yet reconstruction completes and
returns a full output pair instead of failing. -/
theorem empty_span_counterexample :
    (∃ cell ∈ exEmptyColsTable.cells, cell.cols = []) ∧
    reconstructTable exEmptyColsTable =
      .ok { column_labels := some ["H"], data_rows := [] } :=
  ⟨by decide, rfl⟩

/-- Claim C6 amended: a cell with an empty `rows` always makes
reconstruction fail with `IndexError`, and a cell with an empty `cols`
does so only when it takes the non-header branch (it is not
header-flagged, or its first row lies beyond the header prefix); a
header-flagged cell with empty `cols` and `rows[0] <=
max_header_prefix_row` writes nothing and causes no failure. -/
theorem empty_span_rejection (t : Table)
    (hbad : ∃ cell ∈ t.cells, cell.rows = [] ∨
      (cell.cols = [] ∧ (cell.is_header = false ∨
        ¬ cell.rows.headD 0 ≤ max_header_prefix_row (header_rows t.cells)))) :
    reconstructTable t = .error PyErr.indexError := by
  apply reconstructTable_error_of_fill
  unfold fillGrid
  apply fillCells_error_of_bad_cell
  obtain ⟨cell, hmem, hb⟩ := hbad
  exact ⟨cell, hmem, cellOK_false_of_empty hb⟩

/-- A table with a data cell whose `rows` is empty. -/
def exEmptyRowsTable : Table :=
  { num_rows := 1, num_cols := 1,
    cells := [ { rows := [], cols := [0], content := "x", is_header := false } ] }

theorem empty_span_rejection_witness :
    (∃ cell ∈ exEmptyRowsTable.cells, cell.rows = [] ∨
      (cell.cols = [] ∧ (cell.is_header = false ∨
        ¬ cell.rows.headD 0 ≤
          max_header_prefix_row (header_rows exEmptyRowsTable.cells)))) ∧
    reconstructTable exEmptyRowsTable = .error PyErr.indexError :=
  ⟨by decide, empty_span_rejection exEmptyRowsTable (by decide)⟩

/-- Claim C7 amended: an error raised while reconstructing one table is
not local to that table — the exception propagates out of
`tables_to_pandas`, so no results at all are returned, neither for
elements already processed nor for later ones. -/
theorem error_propagation (pre : List Element)
    (rs : List (Element × Option PandasTable))
    (e : Element) (rest : List Element) (err : PyErr)
    (h1 : exMapM processElement pre = .ok rs)
    (h2 : processElement e = .error err) :
    tables_to_pandas { elements := pre ++ e :: rest } = .error err := by
  unfold tables_to_pandas
  simp only
  induction pre generalizing rs with
  | nil =>
    rw [List.nil_append]
    unfold exMapM
    rw [h2]
  | cons a t ih =>
    rw [List.cons_append]
    unfold exMapM
    unfold exMapM at h1
    rcases hfa : processElement a with e2 | b <;> rw [hfa] at h1
    · simp at h1
    · rcases hrest : exMapM processElement t with e2 | bs <;> rw [hrest] at h1
      · simp at h1
      · rw [ih bs hrest]

/-- Two table elements: the first table raises `IndexError` (empty
`rows`), the second is perfectly reconstructible. -/
def exMixedData : PartitionData :=
  { elements := [
      { type := "table", table := some exEmptyRowsTable },
      { type := "table", table := some exHeaderTable } ] }

/-- Counterexample to claim C7 as stated: the second table of
`exMixedData` reconstructs fine on its own, yet the error from the first
table aborts the whole call and no result is returned for any element. -/
theorem error_propagation_counterexample :
    (∃ out, reconstructTable exHeaderTable = .ok out) ∧
    tables_to_pandas exMixedData = .error PyErr.indexError :=
  ⟨⟨_, rfl⟩, rfl⟩

theorem error_propagation_witness :
    exMapM processElement [] =
      .ok ([] : List (Element × Option PandasTable)) ∧
    processElement { type := "table", table := some exEmptyRowsTable } =
      .error PyErr.indexError ∧
    tables_to_pandas { elements :=
      [] ++ { type := "table", table := some exEmptyRowsTable } ::
        [{ type := "table", table := some exHeaderTable }] } =
      .error PyErr.indexError :=
  ⟨rfl, rfl,
    error_propagation [] [] { type := "table", table := some exEmptyRowsTable }
      [{ type := "table", table := some exHeaderTable }] PyErr.indexError rfl rfl⟩

/-- The second component of each returned pair, per element, whenever
`tables_to_pandas` returns at all: the reconstruction for a `"table"`
element with a non-null `table` field, `None` for everything else. -/
def elemTableResult (e : Element) : Option PandasTable :=
  if e.type = "table" then
    match e.table with
    | some t =>
      match reconstructTable t with
      | .ok df => some df
      | .error _ => none
    | none => none
  else none

theorem processElement_ok_inv {e : Element} {p : Element × Option PandasTable}
    (h : processElement e = .ok p) : p = (e, elemTableResult e) := by
  rcases e with ⟨ty, tab⟩
  unfold processElement at h
  unfold elemTableResult
  by_cases ht : ty = "table"
  · subst ht
    have hcond : (("table" : String) = "table") := rfl
    rw [if_pos hcond] at h ⊢
    rcases tab with _ | t
    · simp only [Except.ok.injEq] at h
      exact h.symm
    · simp only at h ⊢
      rcases hrec : reconstructTable t with err | df <;> rw [hrec] at h
      · simp at h
      · simp only [Except.ok.injEq] at h
        exact h.symm
  · rw [if_neg ht] at h ⊢
    simp only [Except.ok.injEq] at h
    exact h.symm

theorem exMapM_processElement_shape {es : List Element}
    {rs : List (Element × Option PandasTable)}
    (h : exMapM processElement es = .ok rs) :
    rs = es.map (fun e => (e, elemTableResult e)) := by
  induction es generalizing rs with
  | nil =>
    simp only [exMapM, Except.ok.injEq] at h
    simp [← h]
  | cons a t ih =>
    unfold exMapM at h
    rcases hfa : processElement a with e2 | b <;> rw [hfa] at h
    · simp at h
    · rcases hrest : exMapM processElement t with e2 | bs <;> rw [hrest] at h
      · simp at h
      · simp only [Except.ok.injEq] at h
        subst h
        rw [List.map_cons, processElement_ok_inv hfa, ih hrest]

/-- Claim C10 amended: whenever `tables_to_pandas` returns at all (no
table's reconstruction raised), it returns one pair per element of
`data["elements"]`, in order, whose first component is the original
element unchanged and whose second component is the reconstruction for
elements of type `"table"` with a non-null `table` field and `None` for
every other element; when any table's reconstruction raises, the
exception propagates and no list is returned. -/
theorem tables_to_pandas_shape (d : PartitionData)
    (rs : List (Element × Option PandasTable))
    (h : tables_to_pandas d = .ok rs) :
    rs = d.elements.map (fun e => (e, elemTableResult e)) :=
  exMapM_processElement_shape h

/-- A response whose second element's table has an out-of-range row. -/
def exBadData : PartitionData :=
  { elements := [
      { type := "text", table := none },
      { type := "table", table := some exOobTable } ] }

/-- Counterexample to claim C10 as stated: this input response makes
`tables_to_pandas` raise, so it does not return a list with one pair per
element. -/
theorem tables_to_pandas_shape_counterexample :
    tables_to_pandas exBadData = .error PyErr.indexError := rfl

/-- A response with a non-table element, a table element with a null
`table` field, and a reconstructible table element. -/
def exGoodData : PartitionData :=
  { elements := [
      { type := "text", table := none },
      { type := "table", table := none },
      { type := "table", table := some exHeaderTable } ] }

def exGoodResult : List (Element × Option PandasTable) :=
  [({ type := "text", table := none }, none),
   ({ type := "table", table := none }, none),
   ({ type := "table", table := some exHeaderTable },
     some { column_labels := some ["Name", "Name"],
            data_rows := [[some "Alice", some "30"]] })]

theorem tables_to_pandas_shape_witness :
    tables_to_pandas exGoodData = .ok exGoodResult ∧
    exGoodResult = exGoodData.elements.map (fun e => (e, elemTableResult e)) :=
  ⟨rfl, tables_to_pandas_shape exGoodData exGoodResult rfl⟩

/-- A table whose single header cell leaves position (0, 1) unfilled:
in-bounds spans that do not tile the grid, with the hole inside the
header region. -/
def exHeaderHoleTable : Table :=
  { num_rows := 1, num_cols := 2,
    cells := [ { rows := [0], cols := [0], content := "H", is_header := true } ] }

/-- Counterexample to claim C8 as stated: `exHeaderHoleTable` has
in-bounds cell spans that do not tile the grid, the unfilled position
(0, 1) lies inside the detected header region, and reconstruction raises
`TypeError` (from joining a `None`) instead of completing with a
best-effort output pair. -/
theorem non_tiling_counterexample :
    (∀ cell ∈ exHeaderHoleTable.cells,
      cellWF exHeaderHoleTable.num_rows exHeaderHoleTable.num_cols cell) ∧
    gridOf exHeaderHoleTable 0 1 = none ∧
    reconstructTable exHeaderHoleTable = .error PyErr.typeError :=
  ⟨by decide, rfl, rfl⟩


/-- Claim C8 amended: for in-bounds non-empty cell spans that need not
tile the grid, reconstruction still completes with a best-effort output
pair provided every position of the detected header region is covered by
some cell; a hole inside the header region instead surfaces as a
`TypeError` from the header flattening (see the counterexample). -/
theorem non_tiling_best_effort (t : Table)
    (hwf : ∀ cell ∈ t.cells, cellWF t.num_rows t.num_cols cell)
    (hcov : ∀ r, r < t.num_rows →
      (r : Int) ≤ max_header_prefix_row (header_rows t.cells) →
      ∀ c, c < t.num_cols →
        ∃ cell ∈ t.cells, (r : Int) ∈ cell.rows ∧ (c : Int) ∈ cell.cols) :
    ∃ out, reconstructTable t = .ok out := by
  have hfill := fillGrid_ok_of_wf hwf
  obtain ⟨labels, hmap⟩ : ∃ labels, exMapM joinHeader
      ((List.range t.num_cols).map (fun c =>
        ((toRows t.num_rows t.num_cols
            (t.cells.foldl (applyCell (max_header_prefix_row (header_rows t.cells))
              t.num_rows t.num_cols) emptyGridF)).take
          (max_header_prefix_row (header_rows t.cells) + 1).toNat).map
            (fun row => row.getD c none))) = .ok labels := by
    apply exMapM_ok_of_forall
    intro col hcol
    obtain ⟨c, hcr, rfl⟩ := List.mem_map.mp hcol
    have hcw : c < t.num_cols := List.mem_range.mp hcr
    apply joinHeader_ok_of_no_none
    intro x hx
    obtain ⟨row, hrow, rfl⟩ := List.mem_map.mp hx
    unfold toRows at hrow
    rw [← List.map_take, List.take_range] at hrow
    obtain ⟨j, hjr, rfl⟩ := List.mem_map.mp hrow
    have hj := List.mem_range.mp hjr
    have hjh : j < t.num_rows := lt_of_lt_of_le hj inf_le_right
    have hjk : j < (max_header_prefix_row (header_rows t.cells) + 1).toNat :=
      lt_of_lt_of_le hj inf_le_left
    have hjm : (j : Int) ≤ max_header_prefix_row (header_rows t.cells) := by omega
    rw [map_range_getD _ _ hcw]
    obtain ⟨cell, hmem, hrm, hcm⟩ := hcov j hjh hjm c hcw
    obtain ⟨hrne, hcne, _, _⟩ := hwf cell hmem
    exact foldl_applyCell_covered hjh hcw ⟨cell, hmem, hrne, hcne, hrm, hcm⟩
  refine ⟨{ column_labels :=
              if 0 ≤ max_header_prefix_row (header_rows t.cells) then some labels
              else none,
            data_rows := (toRows t.num_rows t.num_cols
              (t.cells.foldl (applyCell (max_header_prefix_row (header_rows t.cells))
                t.num_rows t.num_cols) emptyGridF)).drop
              (max_header_prefix_row (header_rows t.cells) + 1).toNat }, ?_⟩
  unfold reconstructTable
  rw [hfill]
  simp only
  rw [hmap]

/-- A table whose single header cell leaves position (1, 0), below the
header region, unfilled. -/
def exBelowHoleTable : Table :=
  { num_rows := 2, num_cols := 1,
    cells := [ { rows := [0], cols := [0], content := "H", is_header := true } ] }

theorem non_tiling_best_effort_witness :
    (∀ cell ∈ exBelowHoleTable.cells,
      cellWF exBelowHoleTable.num_rows exBelowHoleTable.num_cols cell) ∧
    (∃ out, reconstructTable exBelowHoleTable = .ok out) :=
  ⟨by decide, non_tiling_best_effort exBelowHoleTable (by decide) (by
    intro r hr hm c hc
    have hM : max_header_prefix_row (header_rows exBelowHoleTable.cells) = 0 := rfl
    rw [hM] at hm
    have hr0 : r = 0 := by omega
    have hc0 : c = 0 := by
      have : c < 1 := hc
      omega
    subst hr0
    subst hc0
    exact ⟨{ rows := [0], cols := [0], content := "H", is_header := true },
      List.mem_cons_self _ _, by decide, by decide⟩)⟩

/-- Two cells' rectangular spans do not overlap: no (row, column) pair
lies in both. -/
abbrev spansDisjoint (a b : Cell) : Prop :=
  ∀ r ∈ a.rows, ∀ c ∈ a.cols, ¬ (r ∈ b.rows ∧ c ∈ b.cols)

theorem spansDisjoint_symm : Symmetric spansDisjoint := by
  intro a b hab r hr c hc hmem
  exact hab r hmem.1 c hmem.2 ⟨hr, hc⟩

theorem header_rows_perm {cells1 cells2 : List Cell} (p : cells1.Perm cells2) :
    header_rows cells1 = header_rows cells2 := by
  unfold header_rows
  apply List.eq_of_perm_of_sorted (r := fun a b : Int => a ≤ b)
  · exact ((List.perm_insertionSort _ _).trans ((p.flatMap_right _).dedup)).trans
      (List.perm_insertionSort _ _).symm
  · exact List.sorted_insertionSort _ _
  · exact List.sorted_insertionSort _ _

theorem perm_foldl_eq {α β : Type} {f : β → α → β} {l₁ l₂ : List α} (p : l₁.Perm l₂) :
    (∀ x ∈ l₁, ∀ y ∈ l₁, ∀ z, f (f z x) y = f (f z y) x) →
    ∀ b, l₁.foldl f b = l₂.foldl f b := by
  induction p with
  | nil =>
    intro _ b
    rfl
  | cons x p ih =>
    intro comm b
    simp only [List.foldl_cons]
    exact ih (fun a ha y hy z => comm a (List.mem_cons_of_mem _ ha)
      y (List.mem_cons_of_mem _ hy) z) (f b x)
  | swap x y l =>
    intro comm b
    simp only [List.foldl_cons]
    rw [comm y (List.mem_cons_self _ _)
      x (List.mem_cons_of_mem _ (List.mem_cons_self _ _)) b]
  | trans p1 p2 ih1 ih2 =>
    intro comm b
    rw [ih1 comm b]
    exact ih2 (fun a ha y hy z =>
      comm a (p1.mem_iff.mpr ha) y (p1.mem_iff.mpr hy) z) b

/-- The set of resolved grid positions a write sequence touches. -/
def writeTargets (h w : Nat) (ws : List (Int × Int × String)) : List (Nat × Nat) :=
  ws.filterMap (fun x =>
    match npIndex h x.1, npIndex w x.2.1 with
    | some a, some b => some (a, b)
    | _, _ => none)

theorem writeTargets_cons (h w : Nat) (x : Int × Int × String)
    (ws : List (Int × Int × String)) :
    writeTargets h w (x :: ws) =
      (match npIndex h x.1, npIndex w x.2.1 with
       | some a, some b => (a, b) :: writeTargets h w ws
       | _, _ => writeTargets h w ws) := by
  unfold writeTargets
  rw [List.filterMap_cons]
  rcases npIndex h x.1 with _ | a <;> rcases npIndex w x.2.1 with _ | b <;> rfl

theorem foldl_applyWriteF_untouched {h w : Nat} {ws : List (Int × Int × String)}
    {g : GridF} {r c : Nat} (hp : (r, c) ∉ writeTargets h w ws) :
    (ws.foldl (applyWriteF h w) g) r c = g r c := by
  induction ws generalizing g with
  | nil => rfl
  | cons x xs ih =>
    rw [writeTargets_cons] at hp
    rw [List.foldl_cons]
    rcases h1 : npIndex h x.1 with _ | ri <;> rcases h2 : npIndex w x.2.1 with _ | ci <;>
      simp only [h1, h2] at hp <;>
      simp only [applyWriteF, h1, h2]
    · exact ih hp
    · exact ih hp
    · exact ih hp
    · rw [List.mem_cons] at hp
      push_neg at hp
      rw [ih hp.2]
      unfold setF
      split
      · rename_i heq
        exact absurd (by rw [heq.1, heq.2]) hp.1
      · rfl

theorem foldl_applyWriteF_determined {h w : Nat} {ws : List (Int × Int × String)}
    {r c : Nat} (hp : (r, c) ∈ writeTargets h w ws) (g g2 : GridF) :
    (ws.foldl (applyWriteF h w) g) r c = (ws.foldl (applyWriteF h w) g2) r c := by
  induction ws generalizing g g2 with
  | nil => simp [writeTargets] at hp
  | cons x xs ih =>
    rw [List.foldl_cons, List.foldl_cons]
    by_cases htail : (r, c) ∈ writeTargets h w xs
    · exact ih htail _ _
    · rw [writeTargets_cons] at hp
      rcases h1 : npIndex h x.1 with _ | ri <;> rcases h2 : npIndex w x.2.1 with _ | ci <;>
        simp only [h1, h2] at hp
      · exact absurd hp htail
      · exact absurd hp htail
      · exact absurd hp htail
      · rcases List.mem_cons.mp hp with heq | hmem
        · have hri : ri = r := by
            have := congrArg Prod.fst heq
            simpa using this.symm
          have hci : ci = c := by
            have := congrArg Prod.snd heq
            simpa using this.symm
          subst hri
          subst hci
          rw [foldl_applyWriteF_untouched htail, foldl_applyWriteF_untouched htail]
          simp only [applyWriteF, h1, h2]
          unfold setF
          simp
        · exact absurd hmem htail

theorem writeTargets_mem_span {m : Int} {h w : Nat} {cell : Cell}
    (hwfc : cellWF h w cell) {p : Nat × Nat}
    (hp : p ∈ writeTargets h w (claimCellWrites m cell)) :
    ∃ r ∈ cell.rows, ∃ c ∈ cell.cols, 0 ≤ r ∧ 0 ≤ c ∧ p = (r.toNat, c.toNat) := by
  obtain ⟨hrne, hcne, hrb, hcb⟩ := hwfc
  obtain ⟨x, hx, hres⟩ := List.mem_filterMap.mp hp
  obtain ⟨hxr, hxc⟩ := claimCellWrites_mem hrne hcne hx
  have h1 := hrb _ hxr
  have h2 := hcb _ hxc
  rw [npIndex_nonneg h1.1 h1.2, npIndex_nonneg h2.1 h2.2] at hres
  simp only [Option.some.injEq] at hres
  exact ⟨x.1, hxr, x.2.1, hxc, h1.1, h2.1, hres.symm⟩

theorem targets_disjoint {m : Int} {h w : Nat} {x y : Cell}
    (hwx : cellWF h w x) (hwy : cellWF h w y) (hd : spansDisjoint x y)
    {p : Nat × Nat}
    (hpx : p ∈ writeTargets h w (claimCellWrites m x))
    (hpy : p ∈ writeTargets h w (claimCellWrites m y)) : False := by
  obtain ⟨rx, hrx, cx, hcx, hrx0, hcx0, rfl⟩ := writeTargets_mem_span hwx hpx
  obtain ⟨ry, hry, cy, hcy, hry0, hcy0, heq⟩ := writeTargets_mem_span hwy hpy
  have hr : rx = ry := by
    have hfst := congrArg Prod.fst heq
    simp only at hfst
    omega
  have hc : cx = cy := by
    have hsnd := congrArg Prod.snd heq
    simp only at hsnd
    omega
  refine hd rx hrx cx hcx ⟨?_, ?_⟩
  · rw [hr]
    exact hry
  · rw [hc]
    exact hcy

theorem applyCell_comm {m : Int} {h w : Nat} {x y : Cell}
    (hwx : cellWF h w x) (hwy : cellWF h w y) (hd : spansDisjoint x y) (g : GridF) :
    applyCell m h w (applyCell m h w g x) y =
      applyCell m h w (applyCell m h w g y) x := by
  funext r c
  unfold applyCell
  rw [cellWrites_of_wf hwx.1 hwx.2.1, cellWrites_of_wf hwy.1 hwy.2.1]
  simp only [Option.getD_some]
  by_cases hpx : (r, c) ∈ writeTargets h w (claimCellWrites m x)
  · have hpy : (r, c) ∉ writeTargets h w (claimCellWrites m y) :=
      fun hpy => targets_disjoint hwx hwy hd hpx hpy
    rw [foldl_applyWriteF_untouched hpy]
    exact foldl_applyWriteF_determined hpx _ _
  · by_cases hpy : (r, c) ∈ writeTargets h w (claimCellWrites m y)
    · rw [foldl_applyWriteF_untouched hpx]
      exact (foldl_applyWriteF_determined hpy _ _).symm
    · rw [foldl_applyWriteF_untouched hpy, foldl_applyWriteF_untouched hpx,
        foldl_applyWriteF_untouched hpx, foldl_applyWriteF_untouched hpy]

theorem foldl_applyCell_eq_claim (t : Table)
    (hwf : ∀ cell ∈ t.cells, cellWF t.num_rows t.num_cols cell) :
    t.cells.foldl (applyCell (max_header_prefix_row (header_rows t.cells))
      t.num_rows t.num_cols) emptyGridF = claimGrid t := by
  unfold claimGrid
  apply foldl_congr_mem
  intro cell hcell g
  obtain ⟨hr, hc, hrb, hcb⟩ := hwf cell hcell
  unfold applyCell
  rw [cellWrites_of_wf hr hc]
  simp only [Option.getD_some]
  apply foldl_congr_mem
  intro x hx g2
  obtain ⟨hxr, hxc⟩ := claimCellWrites_mem hr hc hx
  exact applyWriteF_eq_claimSetW g2 (hrb _ hxr) (hcb _ hxc)

theorem reconstructTable_no_header {t : Table} {g : GridF}
    (hhr : header_rows t.cells = [])
    (hfill : fillGrid t = .ok g) :
    reconstructTable t =
      .ok { column_labels := none,
            data_rows := toRows t.num_rows t.num_cols g } := by
  unfold reconstructTable
  rw [hfill]
  simp only
  have hm : max_header_prefix_row (header_rows t.cells) = -1 := by
    rw [hhr]
    rfl
  rw [hm]
  obtain ⟨labels, hcols⟩ : ∃ labels, exMapM joinHeader ((List.range t.num_cols).map
      (fun c => ((toRows t.num_rows t.num_cols g).take ((-1 : Int) + 1).toNat).map
        (fun row => row.getD c none))) = .ok labels := by
    apply exMapM_ok_of_forall
    intro a ha
    obtain ⟨c, _, rfl⟩ := List.mem_map.mp ha
    exact ⟨_, rfl⟩
  rw [hcols]
  rfl

/-- Claim C9: for every well-formed table with no header-flagged cell,
reconstruction yields absent column labels and data rows equal to the
grid in which each cell's content appears only at its top-left position
with the rest of its span blanked; and for every permutation of a cell
list with pairwise non-overlapping spans, the reconstruction output is
identical to that of the original ordering. -/
theorem no_header_and_reorder (t : Table) (cells2 : List Cell)
    (hwf : ∀ cell ∈ t.cells, cellWF t.num_rows t.num_cols cell) :
    ((∀ cell ∈ t.cells, cell.is_header = false) →
      reconstructTable t =
        .ok { column_labels := none,
              data_rows := toRows t.num_rows t.num_cols (claimGrid t) }) ∧
    (t.cells.Perm cells2 → t.cells.Pairwise spansDisjoint →
      reconstructTable { t with cells := cells2 } = reconstructTable t) := by
  obtain ⟨nr, nc, cells1⟩ := t
  simp only at hwf ⊢
  constructor
  · intro hnh
    have hhr : header_rows cells1 = [] := by
      unfold header_rows
      have hbind : cells1.flatMap (fun c => if c.is_header then c.rows else []) = [] := by
        rw [List.flatMap_eq_nil_iff]
        intro cell hcell
        rw [hnh cell hcell]
        rfl
      rw [hbind]
      rfl
    have hfill := fillGrid_ok_of_wf (t := ⟨nr, nc, cells1⟩) hwf
    rw [foldl_applyCell_eq_claim ⟨nr, nc, cells1⟩ hwf] at hfill
    exact reconstructTable_no_header hhr hfill
  · intro hp hpair
    have hwf2 : ∀ cell ∈ cells2, cellWF nr nc cell :=
      fun cell hc => hwf cell (hp.mem_iff.mpr hc)
    have hhr2 : header_rows cells2 = header_rows cells1 := (header_rows_perm hp).symm
    have hcomm : ∀ x ∈ cells1, ∀ y ∈ cells1, ∀ z : GridF,
        applyCell (max_header_prefix_row (header_rows cells1)) nr nc
          (applyCell (max_header_prefix_row (header_rows cells1)) nr nc z x) y =
        applyCell (max_header_prefix_row (header_rows cells1)) nr nc
          (applyCell (max_header_prefix_row (header_rows cells1)) nr nc z y) x := by
      intro x hx y hy z
      by_cases hxy : x = y
      · subst hxy
        rfl
      · exact applyCell_comm (hwf x hx) (hwf y hy)
          (List.Pairwise.forall spansDisjoint_symm hpair hx hy hxy) z
    have hfill1 := fillGrid_ok_of_wf (t := ⟨nr, nc, cells1⟩) hwf
    have hfill2 := fillGrid_ok_of_wf (t := ⟨nr, nc, cells2⟩) hwf2
    simp only at hfill1 hfill2
    rw [hhr2] at hfill2
    rw [← perm_foldl_eq hp hcomm emptyGridF] at hfill2
    unfold reconstructTable
    simp only
    rw [hfill1, hfill2, hhr2]

/-- A two-cell header-free table. -/
def exNoHeaderTable : Table :=
  { num_rows := 2, num_cols := 1,
    cells := [
      { rows := [0], cols := [0], content := "a", is_header := false },
      { rows := [1], cols := [0], content := "b", is_header := false } ] }

/-- The same cells in the opposite order. -/
def exNoHeaderPerm : List Cell :=
  [ { rows := [1], cols := [0], content := "b", is_header := false },
    { rows := [0], cols := [0], content := "a", is_header := false } ]

theorem no_header_and_reorder_witness :
    (∀ cell ∈ exNoHeaderTable.cells,
      cellWF exNoHeaderTable.num_rows exNoHeaderTable.num_cols cell) ∧
    (((∀ cell ∈ exNoHeaderTable.cells, cell.is_header = false) →
      reconstructTable exNoHeaderTable =
        .ok { column_labels := none,
              data_rows := toRows exNoHeaderTable.num_rows exNoHeaderTable.num_cols
                (claimGrid exNoHeaderTable) }) ∧
    (exNoHeaderTable.cells.Perm exNoHeaderPerm →
      exNoHeaderTable.cells.Pairwise spansDisjoint →
      reconstructTable { exNoHeaderTable with cells := exNoHeaderPerm } =
        reconstructTable exNoHeaderTable)) :=
  ⟨by decide, no_header_and_reorder exNoHeaderTable exNoHeaderPerm (by decide)⟩
